import Mathlib

/-!
Shallow embedding of the 68HCS12 pulse-interval histogram program
(`src/main.c`, `src/globals.h`).

The program captures 16-bit timer samples in an interrupt service routine
(`OC1_isr`), then computes adjacent-sample deltas and accumulates them in a
bucket table (`process_values`), and prints the non-empty buckets
(`print_values`).  `pre_capture` resets the round state and arms the
interrupt; `post_capture` processes and prints.

Machine integers (UINT16) are modelled as `Nat` with explicit `% 65536`
at the operations where 16-bit wraparound matters.  Arrays
(`num_occurances`, `capture_values`) are modelled as functions `Nat → Nat`
updated with `Function.update`; all writes in the source occur at indices
below the array bound, which is proved rather than assumed.
-/

/-- `#define NUM_CAPTURES 1000` (globals.h, line 4). -/
def NUM_CAPTURES : Nat := 1000

/-- `#define LOW_PERIOD 0x03B6` (main.c, line 36): 950 decimal. -/
def LOW_PERIOD : Nat := 0x03B6

/-- `#define NUM_BUCKETS 100` (main.c, line 37). -/
def NUM_BUCKETS : Nat := 100

/-- Modulus of the 16-bit unsigned arithmetic (UINT16). -/
def U16 : Nat := 65536

/-- 16-bit wrapping subtraction `cur - prev` as computed in
`UINT16 compare_idx = capture_values[i] - capture_values[i-1]`
(main.c, line 217). -/
def delta16 (prev cur : Nat) : Nat :=
  (cur % U16 + U16 - prev % U16) % U16

/-- The value of `compare_idx` after `compare_idx -= LOW_PERIOD`
(main.c, line 220): 16-bit wrapping subtraction of `LOW_PERIOD`. -/
def compareIdx (prev cur : Nat) : Nat :=
  (delta16 prev cur + U16 - LOW_PERIOD) % U16

/-- One iteration of the loop body of `process_values` (main.c,
lines 214-227): compute the wrapped delta of an adjacent pair, subtract
`LOW_PERIOD`, and if the result is `< 100` increment that bucket
(a UINT16 increment, hence `% U16`). -/
def processPair (tbl : Nat → Nat) (prev cur : Nat) : Nat → Nat :=
  if compareIdx prev cur < 100 then
    Function.update tbl (compareIdx prev cur) ((tbl (compareIdx prev cur) + 1) % U16)
  else
    tbl

/-- `process_values` (main.c, lines 211-229): fold `processPair` over the
adjacent pairs of the capture sequence, left to right (the C loop runs
`i = 1 .. NUM_CAPTURES-1` over `capture_values`; here the sequence is the
explicit list argument). -/
def process_values : List Nat → (Nat → Nat) → (Nat → Nat)
  | prev :: cur :: rest, tbl => process_values (cur :: rest) (processPair tbl prev cur)
  | _, tbl => tbl

/-- The all-zero bucket table produced by `init_buckets`
(main.c, lines 206-209: `memset(num_occurances, 0, ...)`). -/
def init_buckets : Nat → Nat := fun _ => 0

/-- Sum of the first `n` entries of a table. -/
def sumTo (t : Nat → Nat) : Nat → Nat
  | 0 => 0
  | n + 1 => sumTo t n + t n

/-- Total count stored in the bucket table (sum of all `NUM_BUCKETS` entries). -/
def tblSum (t : Nat → Nat) : Nat := sumTo t NUM_BUCKETS

/-- The mutable program state shared between the interrupt producer and the
main flow: the globals of main.c / globals.h (`capture_values`,
`capture_idx`, `finished_capturing`, `num_occurances`) together with the two
hardware bits the core touches, the channel-1 interrupt enable `TIE_C1I`
and the pending channel-1 interrupt flag `TFLG1_C1F`. -/
structure SysState where
  capture_values : Nat → Nat
  capture_idx : Nat
  finished_capturing : Bool
  num_occurances : Nat → Nat
  tie_c1i : Bool
  tflg1_c1f : Bool

/-- `OC1_isr` (main.c, lines 149-165): if `capture_idx < NUM_CAPTURES`,
store the 16-bit timer sample `TC1` at the cursor and increment the cursor;
else if `capture_idx == NUM_CAPTURES`, disable the channel-1 interrupt and
set `finished_capturing`; in every case clear the interrupt flag
(`TFLG1 = TFLG1_C1F_MASK`) before returning.  `tc1` is the timer counter
value latched for this edge. -/
def OC1_isr (tc1 : Nat) (s : SysState) : SysState :=
  let s1 :=
    if s.capture_idx < NUM_CAPTURES then
      { s with
          capture_values := Function.update s.capture_values s.capture_idx (tc1 % U16),
          capture_idx := s.capture_idx + 1 }
    else if s.capture_idx = NUM_CAPTURES then
      { s with tie_c1i := false, finished_capturing := true }
    else s
  { s1 with tflg1_c1f := false }

/-- A sequence of ISR invocations: each element of the list is the timer
value `TC1` latched at one hardware edge; the ISR runs once per edge,
left to right. -/
def isrRun (s : SysState) : List Nat → SysState
  | [] => s
  | tc1 :: rest => isrRun (OC1_isr tc1 s) rest

/-- Number of invocations in a run at which the completion flag transitions
from false to true (the ISR "triggers completion"). -/
def completionTransitions (s : SysState) : List Nat → Nat
  | [] => 0
  | tc1 :: rest =>
    (if s.finished_capturing = false ∧ (OC1_isr tc1 s).finished_capturing = true
     then 1 else 0) + completionTransitions (OC1_isr tc1 s) rest

/-- The observable steps of `pre_capture` (main.c, lines 248-260), in
program order: print the prompt, `init_buckets()`,
`finished_capturing = 0`, `capture_idx = 0`, block on `GetChar()`,
`TIE_C1I = 1`. -/
inductive Ev where
  | promptReady
  | initBucketsEv
  | clearFlag
  | clearIdx
  | getCharBlock
  | enableInt
deriving DecidableEq, Repr

/-- Effect of each `pre_capture` step on the program state.  Serial I/O
(the prompt and `GetChar()`) is external and leaves the modelled state
unchanged. -/
def applyEv (s : SysState) : Ev → SysState
  | .promptReady => s
  | .initBucketsEv => { s with num_occurances := init_buckets }
  | .clearFlag => { s with finished_capturing := false }
  | .clearIdx => { s with capture_idx := 0 }
  | .getCharBlock => s
  | .enableInt => { s with tie_c1i := true }

/-- The steps of `pre_capture` in the order they appear in the source
(main.c, lines 248-260). -/
def pre_capture_events : List Ev :=
  [.promptReady, .initBucketsEv, .clearFlag, .clearIdx, .getCharBlock, .enableInt]

/-- `pre_capture` as a state transformer: its steps applied in program
order. -/
def pre_capture (s : SysState) : SysState :=
  pre_capture_events.foldl applyEv s

/-- The snapshot of the capture buffer that `process_values` reads:
`capture_values[0 .. NUM_CAPTURES-1]`. -/
def snapshot (s : SysState) : List Nat :=
  (List.range NUM_CAPTURES).map s.capture_values

/-- `e₁` occurs strictly before `e₂` in the event list `l` (both occur, and
the first occurrence of `e₁` is at a smaller position). -/
def occursBefore (e₁ e₂ : Ev) (l : List Ev) : Prop :=
  e₁ ∈ l ∧ e₂ ∈ l ∧ l.indexOf e₁ < l.indexOf e₂

instance (e₁ e₂ : Ev) (l : List Ev) : Decidable (occursBefore e₁ e₂ l) := by
  unfold occursBefore; infer_instance

/-- Decimal rendering of a 16-bit value passed to printf's `%d` (which
reinterprets the unsigned 16-bit value as a signed 16-bit int). -/
def int16Str (c : Nat) : String :=
  if c % U16 < 32768 then toString (c % U16) else "-" ++ toString (U16 - c % U16)

/-- printf's right-justification to a minimum field width `w` (the `%3d`
conversion pads the rendered number on the left with spaces up to width 3). -/
def rjust (w : Nat) (s : String) : String :=
  if s.length < w then String.mk (List.replicate (w - s.length) ' ') ++ s else s

/-- One output line of `print_values` for bucket `i` holding count `c`:
`printf("Bucket %3d: %d\r\n", i+LOW_PERIOD, num_occurances[i])`
(main.c, line 241). -/
def bucketLine (i c : Nat) : String :=
  "Bucket " ++ rjust 3 (int16Str (i + LOW_PERIOD)) ++ ": " ++ int16Str c ++ "\r\n"

/-- The bucket lines emitted by the loop of `print_values` (main.c,
lines 236-244): for `i = 0 .. NUM_BUCKETS-1`, print a line iff
`num_occurances[i] != 0`. -/
def bucketLinesOf (t : Nat → Nat) : List String :=
  (List.range NUM_BUCKETS).foldl
    (fun acc i => if t i ≠ 0 then acc ++ [bucketLine i (t i)] else acc) []

/-- `print_values` (main.c, lines 231-245): the two header lines followed
by one line per non-empty bucket in index order. -/
def print_values (t : Nat → Nat) : List String :=
  ["Finished capturing.\r\n", "100 Buckets used; omitting empty buckets.\r\n"]
    ++ bucketLinesOf t

/-- `post_capture` (main.c, lines 264-268): `process_values()` then
`print_values()`.  Returns the new state and the lines printed. -/
def post_capture (s : SysState) : SysState × List String :=
  let s' := { s with num_occurances := process_values (snapshot s) s.num_occurances }
  (s', print_values s'.num_occurances)

/-- The state at the start of an armed round: cursor 0, completion flag
clear, buckets zeroed, interrupt source enabled (the state right after
`pre_capture` returns, with an all-zero capture buffer). -/
def resetSysState : SysState :=
  { capture_values := fun _ => 0, capture_idx := 0, finished_capturing := false,
    num_occurances := init_buckets, tie_c1i := true, tflg1_c1f := false }

/-- Specification-side count: how many adjacent pairs of the capture
sequence have `compareIdx` equal to `i` (and in range, `< 100`) — the
number of times `process_values` increments bucket `i`. -/
def hits : List Nat → Nat → Nat
  | prev :: cur :: rest, i =>
    hits (cur :: rest) i +
      (if compareIdx prev cur < 100 ∧ compareIdx prev cur = i then 1 else 0)
  | _, _ => 0

/-- Number of adjacent pairs of the capture sequence: the number of delta
computations `process_values` performs (the C loop body runs once per
`i = 1 .. NUM_CAPTURES-1`). -/
def numPairs : List Nat → Nat
  | _ :: cur :: rest => numPairs (cur :: rest) + 1
  | _ => 0

lemma OC1_isr_capture_idx (t : Nat) (s : SysState) :
    (OC1_isr t s).capture_idx =
      if s.capture_idx < NUM_CAPTURES then s.capture_idx + 1 else s.capture_idx := by
  unfold OC1_isr
  by_cases h1 : s.capture_idx < NUM_CAPTURES
  · simp [h1]
  · by_cases h2 : s.capture_idx = NUM_CAPTURES
    · simp [h1, h2]
    · simp [h1, h2]

lemma OC1_isr_finished (t : Nat) (s : SysState) :
    (OC1_isr t s).finished_capturing =
      (s.finished_capturing || decide (s.capture_idx = NUM_CAPTURES)) := by
  unfold OC1_isr
  by_cases h1 : s.capture_idx < NUM_CAPTURES
  · have h2 : s.capture_idx ≠ NUM_CAPTURES := by omega
    simp [h1, h2]
  · by_cases h2 : s.capture_idx = NUM_CAPTURES
    · simp [h1, h2]
    · simp [h1, h2]

lemma OC1_isr_capture_values (t : Nat) (s : SysState) :
    (OC1_isr t s).capture_values =
      if s.capture_idx < NUM_CAPTURES then
        Function.update s.capture_values s.capture_idx (t % U16)
      else s.capture_values := by
  unfold OC1_isr
  by_cases h1 : s.capture_idx < NUM_CAPTURES
  · simp [h1]
  · by_cases h2 : s.capture_idx = NUM_CAPTURES
    · simp [h1, h2]
    · simp [h1, h2]

lemma OC1_isr_tie (t : Nat) (s : SysState) :
    (OC1_isr t s).tie_c1i = (s.tie_c1i && !decide (s.capture_idx = NUM_CAPTURES)) := by
  unfold OC1_isr
  by_cases h1 : s.capture_idx < NUM_CAPTURES
  · have h2 : s.capture_idx ≠ NUM_CAPTURES := by omega
    simp [h1, h2]
  · by_cases h2 : s.capture_idx = NUM_CAPTURES
    · simp [h1, h2]
    · simp [h1, h2]

lemma isrRun_idx (ts : List Nat) : ∀ s : SysState, s.capture_idx ≤ NUM_CAPTURES →
    (isrRun s ts).capture_idx = min (s.capture_idx + ts.length) NUM_CAPTURES := by
  induction ts with
  | nil => intro s h; simp [isrRun]; omega
  | cons t ts ih =>
    intro s h
    rw [isrRun, ih _ (by rw [OC1_isr_capture_idx]; split <;> omega)]
    rw [OC1_isr_capture_idx]
    split <;> simp <;> omega

lemma isrRun_fin_true (ts : List Nat) : ∀ s : SysState, s.finished_capturing = true →
    (isrRun s ts).finished_capturing = true := by
  induction ts with
  | nil => intro s h; simpa [isrRun] using h
  | cons t ts ih =>
    intro s h
    rw [isrRun]
    exact ih _ (by rw [OC1_isr_finished, h]; rfl)

lemma isrRun_finished (ts : List Nat) : ∀ s : SysState, s.finished_capturing = false →
    s.capture_idx ≤ NUM_CAPTURES →
    ((isrRun s ts).finished_capturing = true ↔ NUM_CAPTURES < s.capture_idx + ts.length) := by
  induction ts with
  | nil =>
    intro s hf h
    simp [isrRun, hf]
    omega
  | cons t ts ih =>
    intro s hf h
    by_cases hlt : s.capture_idx < NUM_CAPTURES
    · have hne : s.capture_idx ≠ NUM_CAPTURES := by omega
      rw [isrRun,
        ih _ (by rw [OC1_isr_finished, hf]; simp [hne])
          (by rw [OC1_isr_capture_idx]; split <;> omega),
        OC1_isr_capture_idx]
      simp [hlt]
      omega
    · have heq : s.capture_idx = NUM_CAPTURES := by omega
      rw [isrRun, isrRun_fin_true ts _ (by rw [OC1_isr_finished]; simp [heq])]
      simp
      omega

lemma completionTransitions_of_true (ts : List Nat) : ∀ s : SysState,
    s.finished_capturing = true → completionTransitions s ts = 0 := by
  induction ts with
  | nil => intro s _; rfl
  | cons t ts ih =>
    intro s h
    rw [completionTransitions, if_neg (by simp [h]),
      ih _ (by rw [OC1_isr_finished, h]; rfl)]

lemma completionTransitions_char (ts : List Nat) : ∀ s : SysState,
    s.finished_capturing = false → s.capture_idx ≤ NUM_CAPTURES →
    completionTransitions s ts =
      if NUM_CAPTURES < s.capture_idx + ts.length then 1 else 0 := by
  induction ts with
  | nil =>
    intro s hf h
    rw [completionTransitions, if_neg (by simp only [List.length_nil]; omega)]
  | cons t ts ih =>
    intro s hf h
    by_cases hlt : s.capture_idx < NUM_CAPTURES
    · have hne : s.capture_idx ≠ NUM_CAPTURES := by omega
      rw [completionTransitions,
        if_neg (by rw [OC1_isr_finished, hf]; simp [hne]),
        ih _ (by rw [OC1_isr_finished, hf]; simp [hne])
          (by rw [OC1_isr_capture_idx]; split <;> omega),
        OC1_isr_capture_idx]
      simp [hlt]
      by_cases hc : NUM_CAPTURES < s.capture_idx + 1 + ts.length
      · rw [if_pos hc, if_pos (by simpa using (by omega : NUM_CAPTURES < s.capture_idx + (ts.length + 1)))]
      · rw [if_neg hc, if_neg (by omega)]
    · have heq : s.capture_idx = NUM_CAPTURES := by omega
      rw [completionTransitions,
        if_pos (by rw [OC1_isr_finished, hf]; simp [heq]),
        completionTransitions_of_true ts _ (by rw [OC1_isr_finished]; simp [heq]),
        if_pos (by simp; omega)]

/-- C2: For every sequence of ISR invocations from a reset state
(cursor 0, flag false), the cursor never exceeds NUM_CAPTURES = 1000 and
equals the number of invocations capped at 1000; the cursor is never
decremented by any invocation; no invocation ever changes a
`capture_values` entry at an index ≥ NUM_CAPTURES (writes stay strictly
below capacity); an invocation finding the cursor equal to capacity
performs no buffer write, sets the completion flag and disables the
interrupt source; and over the whole run the completion flag transitions
false→true exactly once when the run is long enough to hit capacity
(and never otherwise). -/
theorem C2_capacity_bound (s : SysState) (hidx : s.capture_idx = 0)
    (hfl : s.finished_capturing = false) (ts : List Nat) :
    (isrRun s ts).capture_idx = min ts.length NUM_CAPTURES ∧
    (isrRun s ts).capture_idx ≤ NUM_CAPTURES ∧
    (∀ (p : SysState) (t : Nat), p.capture_idx ≤ (OC1_isr t p).capture_idx) ∧
    (∀ (p : SysState) (t : Nat) (j : Nat), NUM_CAPTURES ≤ j →
      (OC1_isr t p).capture_values j = p.capture_values j) ∧
    (∀ (p : SysState) (t : Nat), p.capture_idx = NUM_CAPTURES →
      (OC1_isr t p).capture_values = p.capture_values ∧
      (OC1_isr t p).finished_capturing = true ∧
      (OC1_isr t p).tie_c1i = false) ∧
    completionTransitions s ts = (if NUM_CAPTURES < ts.length then 1 else 0) := by
  have hidx' : s.capture_idx ≤ NUM_CAPTURES := by omega
  refine ⟨?_, ?_, ?_, ?_, ?_, ?_⟩
  · rw [isrRun_idx ts s hidx', hidx, Nat.zero_add]
  · rw [isrRun_idx ts s hidx']; omega
  · intro p t; rw [OC1_isr_capture_idx]; split <;> omega
  · intro p t j hj
    rw [OC1_isr_capture_values]
    split
    · rw [Function.update_noteq (by omega)]
    · rfl
  · intro p t hp
    refine ⟨?_, ?_, ?_⟩
    · rw [OC1_isr_capture_values, if_neg (by omega)]
    · rw [OC1_isr_finished]; simp [hp]
    · rw [OC1_isr_tie]; simp [hp]
  · rw [completionTransitions_char ts s hfl hidx', hidx]
    simp

/-- C2 witness: the theorem instantiated at the armed reset state and a
concrete run of 1001 edges. -/
theorem C2_capacity_bound_witness :
    (isrRun resetSysState (List.replicate 1001 0)).capture_idx =
      min (List.replicate 1001 0).length NUM_CAPTURES ∧
    (isrRun resetSysState (List.replicate 1001 0)).capture_idx ≤ NUM_CAPTURES ∧
    (∀ (p : SysState) (t : Nat), p.capture_idx ≤ (OC1_isr t p).capture_idx) ∧
    (∀ (p : SysState) (t : Nat) (j : Nat), NUM_CAPTURES ≤ j →
      (OC1_isr t p).capture_values j = p.capture_values j) ∧
    (∀ (p : SysState) (t : Nat), p.capture_idx = NUM_CAPTURES →
      (OC1_isr t p).capture_values = p.capture_values ∧
      (OC1_isr t p).finished_capturing = true ∧
      (OC1_isr t p).tie_c1i = false) ∧
    completionTransitions resetSysState (List.replicate 1001 0) =
      (if NUM_CAPTURES < (List.replicate 1001 0).length then 1 else 0) :=
  C2_capacity_bound resetSysState rfl rfl (List.replicate 1001 0)

/-- C3 counterexample: after exactly NUM_CAPTURES = 1000 ISR invocations
from the reset state — i.e. immediately after the invocation that stores
the 1000th sample and makes the cursor equal to capacity — the completion
flag still reads false, contradicting the claim that it is true as soon as
the buffer has reached capacity. -/
theorem C3_counterexample :
    (isrRun resetSysState (List.replicate NUM_CAPTURES 0)).capture_idx = NUM_CAPTURES ∧
    (isrRun resetSysState (List.replicate NUM_CAPTURES 0)).finished_capturing = false := by
  constructor
  · rw [isrRun_idx _ _ (by decide)]
    simp only [resetSysState, List.length_replicate]
    omega
  · have h := isrRun_finished (List.replicate NUM_CAPTURES 0) resetSysState rfl (by decide)
    rw [List.length_replicate] at h
    have hz : resetSysState.capture_idx = 0 := rfl
    rw [hz] at h
    rcases hb : (isrRun resetSysState (List.replicate NUM_CAPTURES 0)).finished_capturing with _ | _
    · rfl
    · exact absurd (h.mp hb) (by omega)

/-- C3 amended: the completion flag becomes true only on the first ISR
invocation that finds the buffer already full — i.e. after a run from the
reset state it reads true iff the number of invocations strictly exceeds
NUM_CAPTURES (one more edge than the one that stored the last sample). -/
theorem C3_flag_after_full (s : SysState) (hidx : s.capture_idx = 0)
    (hfl : s.finished_capturing = false) (ts : List Nat) :
    (isrRun s ts).finished_capturing = true ↔ NUM_CAPTURES < ts.length := by
  rw [isrRun_finished ts s hfl (by omega), hidx]
  omega

/-- C3 amended witness: 1001 invocations from the reset state leave the
completion flag true. -/
theorem C3_flag_after_full_witness :
    (isrRun resetSysState (List.replicate 1001 0)).finished_capturing = true :=
  (C3_flag_after_full resetSysState rfl rfl (List.replicate 1001 0)).mpr
    (by rw [List.length_replicate]; decide)

/-- C4: once the completion flag is true, neither an ISR invocation nor a
whole further ISR run nor the histogram/report step (`post_capture`) ever
makes it false again; it is cleared (only) by the round reset inside
`pre_capture`. -/
theorem C4_completion_monotone (s : SysState) (h : s.finished_capturing = true) :
    (∀ t : Nat, (OC1_isr t s).finished_capturing = true) ∧
    (∀ ts : List Nat, (isrRun s ts).finished_capturing = true) ∧
    (post_capture s).1.finished_capturing = true ∧
    (pre_capture s).finished_capturing = false := by
  refine ⟨?_, ?_, ?_, ?_⟩
  · intro t; rw [OC1_isr_finished, h]; rfl
  · intro ts; exact isrRun_fin_true ts s h
  · simpa [post_capture] using h
  · rfl

/-- C4 witness: the theorem instantiated at a completed concrete state. -/
theorem C4_completion_monotone_witness :
    (∀ t : Nat, (OC1_isr t { resetSysState with finished_capturing := true }).finished_capturing = true) ∧
    (∀ ts : List Nat, (isrRun { resetSysState with finished_capturing := true } ts).finished_capturing = true) ∧
    (post_capture { resetSysState with finished_capturing := true }).1.finished_capturing = true ∧
    (pre_capture { resetSysState with finished_capturing := true }).finished_capturing = false :=
  C4_completion_monotone { resetSysState with finished_capturing := true } rfl

/-- C9: on every ISR invocation, whatever branch is taken, the hardware
interrupt flag TFLG1.C1F is cleared before the ISR returns. -/
theorem C9_int_flag_cleared (tc1 : Nat) (s : SysState) :
    (OC1_isr tc1 s).tflg1_c1f = false := rfl

/-- C1: Running the Histogram Processor once on the sample sequence
[1000, 2000, 2976, 5000] (LOW_PERIOD = 0x3B6 = 950, NUM_BUCKETS = 100)
starting from the all-zero bucket table yields bucket[50] = 1,
bucket[26] = 1, all other buckets 0, and total count 2: the third delta
2024 is out of range and discarded. -/
theorem C1_bucketing_example :
    (process_values [1000, 2000, 2976, 5000] init_buckets) 50 = 1 ∧
    (process_values [1000, 2000, 2976, 5000] init_buckets) 26 = 1 ∧
    (∀ i, i < NUM_BUCKETS → i ≠ 50 → i ≠ 26 →
      (process_values [1000, 2000, 2976, 5000] init_buckets) i = 0) ∧
    tblSum (process_values [1000, 2000, 2976, 5000] init_buckets) = 2 := by
  refine ⟨by decide, by decide, ?_, by decide⟩
  decide

lemma delta16_lt (prev cur : Nat) : delta16 prev cur < U16 := by
  unfold delta16
  exact Nat.mod_lt _ (by decide)

lemma compareIdx_eq_of_ge (prev cur : Nat) (h : LOW_PERIOD ≤ delta16 prev cur) :
    compareIdx prev cur = delta16 prev cur - LOW_PERIOD := by
  have hd := delta16_lt prev cur
  have hU : U16 = 65536 := rfl
  have hL : LOW_PERIOD = 950 := rfl
  unfold compareIdx
  have he : delta16 prev cur + U16 - LOW_PERIOD = (delta16 prev cur - LOW_PERIOD) + U16 := by
    omega
  rw [he, Nat.add_mod_right, Nat.mod_eq_of_lt (by omega)]

lemma compareIdx_eq_of_lt (prev cur : Nat) (h : delta16 prev cur < LOW_PERIOD) :
    compareIdx prev cur = delta16 prev cur + (U16 - LOW_PERIOD) := by
  have hU : U16 = 65536 := rfl
  have hL : LOW_PERIOD = 950 := rfl
  unfold compareIdx
  have he : delta16 prev cur + U16 - LOW_PERIOD = delta16 prev cur + (U16 - LOW_PERIOD) := by
    omega
  rw [he, Nat.mod_eq_of_lt (by omega)]

lemma compareIdx_lt_iff (prev cur : Nat) :
    compareIdx prev cur < 100 ↔
      LOW_PERIOD ≤ delta16 prev cur ∧ delta16 prev cur < LOW_PERIOD + NUM_BUCKETS := by
  have hU : U16 = 65536 := rfl
  have hL : LOW_PERIOD = 950 := rfl
  have hB : NUM_BUCKETS = 100 := rfl
  by_cases h : LOW_PERIOD ≤ delta16 prev cur
  · rw [compareIdx_eq_of_ge prev cur h]
    omega
  · rw [compareIdx_eq_of_lt prev cur (by omega)]
    omega

/-- C5: for each adjacent pair, `process_values` increments exactly one
bucket — the one at index `delta - LOW_PERIOD` — iff the 16-bit wrapping
delta lies in `[LOW_PERIOD, LOW_PERIOD + NUM_BUCKETS)`, and otherwise
leaves the table unchanged; in particular a delta strictly below
`LOW_PERIOD` is excluded, never wrapped into a valid low bucket. -/
theorem C5_delta_range (prev cur : Nat) (tbl : Nat → Nat) :
    (LOW_PERIOD ≤ delta16 prev cur ∧ delta16 prev cur < LOW_PERIOD + NUM_BUCKETS →
      processPair tbl prev cur =
        Function.update tbl (delta16 prev cur - LOW_PERIOD)
          ((tbl (delta16 prev cur - LOW_PERIOD) + 1) % U16)) ∧
    (¬ (LOW_PERIOD ≤ delta16 prev cur ∧ delta16 prev cur < LOW_PERIOD + NUM_BUCKETS) →
      processPair tbl prev cur = tbl) := by
  constructor
  · intro h
    have hci : compareIdx prev cur < 100 := (compareIdx_lt_iff prev cur).mpr h
    unfold processPair
    rw [if_pos hci, compareIdx_eq_of_ge prev cur h.1]
  · intro h
    have hci : ¬ compareIdx prev cur < 100 := fun hc => h ((compareIdx_lt_iff prev cur).mp hc)
    unfold processPair
    rw [if_neg hci]

/-- C5 witness: the pair (1000, 2000) has delta 1000 ∈ [950, 1050) and
increments bucket 50; the pair (1000, 5000) has delta 4000, out of range,
and leaves the table unchanged. -/
theorem C5_delta_range_witness :
    processPair init_buckets 1000 2000 = Function.update init_buckets 50 1 ∧
    processPair init_buckets 1000 5000 = init_buckets := by
  constructor
  · have h := (C5_delta_range 1000 2000 init_buckets).1 (by decide)
    rw [h]
    rfl
  · exact (C5_delta_range 1000 5000 init_buckets).2 (by decide)

lemma bucketLines_foldl (t : Nat → Nat) (l : List Nat) : ∀ acc : List String,
    l.foldl (fun acc i => if t i ≠ 0 then acc ++ [bucketLine i (t i)] else acc) acc =
      acc ++ l.filterMap (fun i => if t i ≠ 0 then some (bucketLine i (t i)) else none) := by
  induction l with
  | nil => intro acc; simp
  | cons x xs ih =>
    intro acc
    by_cases hx : t x ≠ 0
    · simp only [List.foldl_cons, List.filterMap_cons, if_pos hx, ih, List.append_assoc,
        List.singleton_append]
    · simp only [List.foldl_cons, List.filterMap_cons, if_neg hx, ih]

lemma bucketLinesOf_eq (t : Nat → Nat) :
    bucketLinesOf t =
      (List.range NUM_BUCKETS).filterMap
        (fun i => if t i ≠ 0 then some (bucketLine i (t i)) else none) := by
  unfold bucketLinesOf
  rw [bucketLines_foldl t (List.range NUM_BUCKETS) []]
  rfl

/-- C6: for every bucket table, `print_values` emits (after the two fixed
header lines) exactly one line per index with a non-zero count, in
ascending index order — the lines are the in-order filter-map of the index
range — each line in the literal form produced by
`printf("Bucket %3d: %d\r\n", i+LOW_PERIOD, count)`; zero-count buckets
produce no line.  A table non-zero only at indices 3 and 80 yields exactly
the two lines for 3 and 80, in that order. -/
theorem C6_report_lines (t : Nat → Nat) :
    print_values t =
      ["Finished capturing.\r\n", "100 Buckets used; omitting empty buckets.\r\n"] ++
        (List.range NUM_BUCKETS).filterMap
          (fun i => if t i ≠ 0 then some (bucketLine i (t i)) else none) ∧
    bucketLine 3 5 = "Bucket 953: 5\r\n" ∧
    bucketLine 80 7 = "Bucket 1030: 7\r\n" ∧
    bucketLinesOf (Function.update (Function.update init_buckets 3 5) 80 7) =
      [bucketLine 3 5, bucketLine 80 7] := by
  refine ⟨?_, by decide, by decide, by decide⟩
  unfold print_values
  rw [bucketLinesOf_eq]

lemma sumTo_congr (f g : Nat → Nat) : ∀ n, (∀ i, i < n → f i = g i) →
    sumTo f n = sumTo g n := by
  intro n
  induction n with
  | zero => intro _; rfl
  | succ n ih =>
    intro h
    rw [sumTo, sumTo, ih (fun i hi => h i (by omega)), h n (by omega)]

lemma sumTo_zero : ∀ n, sumTo (fun _ => 0) n = 0 := by
  intro n
  induction n with
  | zero => rfl
  | succ n ih => rw [sumTo, ih]

lemma sumTo_add (f g : Nat → Nat) : ∀ n,
    sumTo (fun i => f i + g i) n = sumTo f n + sumTo g n := by
  intro n
  induction n with
  | zero => rfl
  | succ n ih => rw [sumTo, sumTo, sumTo, ih]; omega

lemma sumTo_single (k : Nat) : ∀ n, k < n →
    sumTo (fun i => if k = i then (1 : Nat) else 0) n = 1 := by
  intro n
  induction n with
  | zero => omega
  | succ n ih =>
    intro hk
    by_cases h : k = n
    · rw [sumTo, if_pos h,
        sumTo_congr _ (fun _ => 0) n (fun i hi => if_neg (by omega)), sumTo_zero]
    · rw [sumTo, if_neg h, ih (by omega)]

lemma hits_le : ∀ (l : List Nat) (i : Nat), hits l i ≤ numPairs l := by
  intro l
  induction l with
  | nil => intro i; simp [hits, numPairs]
  | cons a l ih =>
    intro i
    cases l with
    | nil => simp [hits, numPairs]
    | cons b r =>
      have h := ih i
      simp only [hits, numPairs]
      split <;> omega

lemma numPairs_len : ∀ l : List Nat, numPairs l = l.length - 1 := by
  intro l
  induction l with
  | nil => rfl
  | cons a l ih =>
    cases l with
    | nil => rfl
    | cons b r =>
      simp only [numPairs, List.length_cons] at ih ⊢
      omega

lemma process_values_eq_add_hits : ∀ (l : List Nat) (tbl : Nat → Nat),
    (∀ j, tbl j + hits l j < U16) →
    process_values l tbl = fun j => tbl j + hits l j := by
  intro l
  induction l with
  | nil =>
    intro tbl _
    funext j
    simp [process_values, hits]
  | cons a l ih =>
    intro tbl h
    cases l with
    | nil =>
      funext j
      simp [process_values, hits]
    | cons b r =>
      rw [process_values]
      by_cases hc : compareIdx a b < 100
      · have hself : hits (a :: b :: r) (compareIdx a b) =
            hits (b :: r) (compareIdx a b) + 1 := by
          simp [hits, hc]
        have hother : ∀ j, j ≠ compareIdx a b →
            hits (a :: b :: r) j = hits (b :: r) j := by
          intro j hj
          simp only [hits]
          rw [if_neg (by intro hcontra; exact hj hcontra.2.symm)]
          omega
        have hnw : tbl (compareIdx a b) + 1 < U16 := by
          have := h (compareIdx a b)
          rw [hself] at this
          omega
        have hpp : processPair tbl a b =
            Function.update tbl (compareIdx a b) (tbl (compareIdx a b) + 1) := by
          unfold processPair
          rw [if_pos hc, Nat.mod_eq_of_lt hnw]
        rw [hpp, ih _ ?hbound]
        case hbound =>
          intro j
          by_cases hj : j = compareIdx a b
          · rw [hj, Function.update_same]
            have := h (compareIdx a b)
            rw [hself] at this
            omega
          · rw [Function.update_noteq hj]
            have := h j
            rw [hother j hj] at this
            omega
        funext j
        by_cases hj : j = compareIdx a b
        · rw [hj, Function.update_same, hself]
          omega
        · rw [Function.update_noteq hj, hother j hj]
      · have hsame : ∀ j, hits (a :: b :: r) j = hits (b :: r) j := by
          intro j
          simp only [hits]
          rw [if_neg (by intro hcontra; exact hc hcontra.1)]
          omega
        have hpp : processPair tbl a b = tbl := by
          unfold processPair
          rw [if_neg hc]
        rw [hpp, ih _ (fun j => by rw [← hsame j]; exact h j)]
        funext j
        rw [hsame j]

lemma sumTo_hits_le : ∀ l : List Nat, sumTo (hits l) NUM_BUCKETS ≤ numPairs l := by
  intro l
  induction l with
  | nil =>
    have h0 : sumTo (hits []) NUM_BUCKETS = 0 := by
      rw [sumTo_congr (hits []) (fun _ => 0) NUM_BUCKETS (fun i _ => rfl)]
      exact sumTo_zero NUM_BUCKETS
    rw [h0]
    exact Nat.zero_le _
  | cons a l ih =>
    cases l with
    | nil =>
      have h0 : sumTo (hits [a]) NUM_BUCKETS = 0 := by
        rw [sumTo_congr (hits [a]) (fun _ => 0) NUM_BUCKETS (fun i _ => rfl)]
        exact sumTo_zero NUM_BUCKETS
      rw [h0]
      exact Nat.zero_le _
    | cons b r =>
      have hsplit : sumTo (hits (a :: b :: r)) NUM_BUCKETS =
          sumTo (hits (b :: r)) NUM_BUCKETS +
            sumTo (fun i => if compareIdx a b < 100 ∧ compareIdx a b = i then 1 else 0)
              NUM_BUCKETS := by
        rw [← sumTo_add]
        exact sumTo_congr _ _ NUM_BUCKETS (fun i _ => rfl)
      have hind : sumTo (fun i => if compareIdx a b < 100 ∧ compareIdx a b = i then 1 else 0)
          NUM_BUCKETS ≤ 1 := by
        by_cases hc : compareIdx a b < 100
        · rw [sumTo_congr _ (fun i => if compareIdx a b = i then 1 else 0) NUM_BUCKETS
            (fun i _ => by
              by_cases he : compareIdx a b = i
              · rw [if_pos ⟨hc, he⟩]
                exact (if_pos he).symm
              · rw [if_neg (fun hcontra => he hcontra.2)]
                exact (if_neg he).symm)]
          rw [sumTo_single (compareIdx a b) NUM_BUCKETS hc]
        · rw [sumTo_congr _ (fun _ => 0) NUM_BUCKETS
            (fun i _ => by rw [if_neg (fun hcontra => hc hcontra.1)])]
          rw [sumTo_zero]
          omega
      have : numPairs (a :: b :: r) = numPairs (b :: r) + 1 := rfl
      omega

lemma process_init_eq_hits (caps : List Nat) (h : numPairs caps < U16) :
    process_values caps init_buckets = fun j => hits caps j := by
  rw [process_values_eq_add_hits caps init_buckets
    (fun j => by have := hits_le caps j; simp only [init_buckets]; omega)]
  funext j
  simp [init_buckets]

/-- C7: processing the same snapshot twice without resetting the bucket
table doubles every bucket count relative to a single run from the all-zero
table — `process_values` accumulates instead of overwriting. -/
theorem C7_processing_accumulates (caps : List Nat) (h : caps.length = NUM_CAPTURES) :
    ∀ i : Nat, process_values caps (process_values caps init_buckets) i =
      2 * process_values caps init_buckets i := by
  have hU : U16 = 65536 := rfl
  have hnp : numPairs caps ≤ 999 := by rw [numPairs_len, h]; decide
  have hb : ∀ j, hits caps j ≤ 999 := fun j => le_trans (hits_le caps j) hnp
  have h1 : process_values caps init_buckets = fun j => hits caps j :=
    process_init_eq_hits caps (by omega)
  have h2 : process_values caps (fun j => hits caps j) =
      fun j => hits caps j + hits caps j :=
    process_values_eq_add_hits caps _ (fun j => by have := hb j; omega)
  intro i
  rw [h1, h2]
  show hits caps i + hits caps i = 2 * hits caps i
  omega

/-- C7 witness: the theorem applied to the all-zero snapshot of length
NUM_CAPTURES, at bucket 0. -/
theorem C7_processing_accumulates_witness :
    process_values (List.replicate NUM_CAPTURES 0)
        (process_values (List.replicate NUM_CAPTURES 0) init_buckets) 0 =
      2 * process_values (List.replicate NUM_CAPTURES 0) init_buckets 0 :=
  C7_processing_accumulates (List.replicate NUM_CAPTURES 0) (by rw [List.length_replicate]) 0

/-- C10: one run of `process_values` over a full snapshot performs exactly
NUM_CAPTURES - 1 = 999 delta computations; starting from the all-zero
table the total of all bucket counts is at most 999 and every individual
bucket count is at most 999 — in particular one further increment still
fits in 16 bits, so no bucket counter increment can overflow within a
single round. -/
theorem C10_no_counter_overflow (caps : List Nat) (h : caps.length = NUM_CAPTURES) :
    numPairs caps = NUM_CAPTURES - 1 ∧
    tblSum (process_values caps init_buckets) ≤ NUM_CAPTURES - 1 ∧
    (∀ i : Nat, process_values caps init_buckets i ≤ NUM_CAPTURES - 1) ∧
    (∀ i : Nat, process_values caps init_buckets i + 1 < U16) := by
  have hU : U16 = 65536 := rfl
  have hN : NUM_CAPTURES = 1000 := rfl
  have hnp : numPairs caps = NUM_CAPTURES - 1 := by rw [numPairs_len, h]
  have h1 : process_values caps init_buckets = fun j => hits caps j :=
    process_init_eq_hits caps (by omega)
  have hb : ∀ j, hits caps j ≤ NUM_CAPTURES - 1 := fun j => hnp ▸ hits_le caps j
  refine ⟨hnp, ?_, ?_, ?_⟩
  · rw [h1]
    have hs : sumTo (fun j => hits caps j) NUM_BUCKETS ≤ numPairs caps := sumTo_hits_le caps
    unfold tblSum
    omega
  · intro i
    rw [h1]
    exact hb i
  · intro i
    rw [h1]
    show hits caps i + 1 < U16
    have := hb i
    omega

/-- C10 witness: the theorem applied to the all-zero snapshot of length
NUM_CAPTURES. -/
theorem C10_no_counter_overflow_witness :
    numPairs (List.replicate NUM_CAPTURES 0) = NUM_CAPTURES - 1 ∧
    tblSum (process_values (List.replicate NUM_CAPTURES 0) init_buckets) ≤ NUM_CAPTURES - 1 ∧
    (∀ i : Nat, process_values (List.replicate NUM_CAPTURES 0) init_buckets i ≤ NUM_CAPTURES - 1) ∧
    (∀ i : Nat, process_values (List.replicate NUM_CAPTURES 0) init_buckets i + 1 < U16) :=
  C10_no_counter_overflow (List.replicate NUM_CAPTURES 0) (by rw [List.length_replicate])

/-- C8 counterexample: in `pre_capture` as written (main.c, lines 248-260)
the resets of the bucket table, the completion flag and the cursor do NOT
follow the blocking `GetChar()` acknowledgment — they all occur before it.
The event trace of `pre_capture` is exactly prompt, init_buckets,
flag clear, cursor clear, GetChar, interrupt enable, and the
acknowledgment does not precede any of the three resets, refuting the
claimed order "prompt/block, then reset, then arm". -/
theorem C8_counterexample :
    pre_capture_events =
      [Ev.promptReady, Ev.initBucketsEv, Ev.clearFlag, Ev.clearIdx,
        Ev.getCharBlock, Ev.enableInt] ∧
    ¬ occursBefore Ev.getCharBlock Ev.initBucketsEv pre_capture_events ∧
    ¬ occursBefore Ev.getCharBlock Ev.clearFlag pre_capture_events ∧
    ¬ occursBefore Ev.getCharBlock Ev.clearIdx pre_capture_events := by
  refine ⟨rfl, ?_, ?_, ?_⟩ <;> decide

/-- C8 amended: in every round `pre_capture` first prompts the operator,
then resets the bucket table, the completion flag and the cursor, then
blocks on the operator acknowledgment (`GetChar()`), and only then enables
the edge-interrupt source; the resets strictly precede the blocking
acknowledgment (rather than follow it), and arming strictly follows both
the resets and the acknowledgment.  The net state effect is: buckets
zeroed, flag false, cursor 0, interrupt enabled. -/
theorem C8_round_order :
    occursBefore Ev.promptReady Ev.initBucketsEv pre_capture_events ∧
    occursBefore Ev.initBucketsEv Ev.clearFlag pre_capture_events ∧
    occursBefore Ev.clearFlag Ev.clearIdx pre_capture_events ∧
    occursBefore Ev.clearIdx Ev.getCharBlock pre_capture_events ∧
    occursBefore Ev.getCharBlock Ev.enableInt pre_capture_events ∧
    (∀ s : SysState,
      (pre_capture s).num_occurances = init_buckets ∧
      (pre_capture s).finished_capturing = false ∧
      (pre_capture s).capture_idx = 0 ∧
      (pre_capture s).tie_c1i = true) := by
  refine ⟨by decide, by decide, by decide, by decide, by decide, ?_⟩
  intro s
  exact ⟨rfl, rfl, rfl, rfl⟩
